import Mathlib

set_option maxHeartbeats 1000000

/-!
Shallow embedding of the Minefield game engine
(`src/minefield/minefield.cpp`): the cell-flag algebra, the board with its
bounds-checked accessors, and the round-resolution functions, together with
theorems about the properties the design document states for them.

Machine integers (`unsigned int`, the cell-flag carrier) are modelled as
`Nat` with bitwise operations; the C++ bitwise complement `~` on a 32-bit
unsigned value is `xor` with `2 ^ 32 - 1`.
-/

/-- Mirrors `struct Position` (zero-based column/row, unsigned). -/
structure Position where
  column : Nat
  row : Nat
  deriving DecidableEq, Repr

/-- Mirrors `struct Player`. -/
structure Player where
  isHuman : Bool
  name : String
  remainingMines : Nat
  currentMines : List Position
  currentGuesses : List Position
  deriving DecidableEq, Repr

namespace CellStatusFlags

/-- `CellStatusFlags::None`. -/
def NoneF : Nat := 0

/-- `CellStatusFlags::Disabled = 0x01`. -/
def Disabled : Nat := 0x01

/-- `CellStatusFlags::HasMine = 0x02`. -/
def HasMine : Nat := 0x02

/-- `CellStatusFlags::WasGuessed = 0x04`. -/
def WasGuessed : Nat := 0x04

/-- `CellStatusFlags::SelfDetonated = 0x08`. -/
def SelfDetonated : Nat := 0x08

/-- `CellStatusFlags::HadCollision = 0x10`. -/
def HadCollision : Nat := 0x10

end CellStatusFlags

/-- Largest value of the 32-bit `CellFlagsType` carrier. -/
def UINT32_MAX : Nat := 2 ^ 32 - 1

/-- C++ `~` on a 32-bit unsigned value: xor with all ones. -/
def compl32 (a : Nat) : Nat := UINT32_MAX ^^^ a

/-- Mirrors `hasFlag`: for the zero flag, `has` means the value is exactly
zero; for any other flag, all its bits must be present. -/
def hasFlag (var flag : Nat) : Bool :=
  if flag = CellStatusFlags.NoneF then var == 0
  else (var &&& flag) == flag

/-- Mirrors `utils::samePosition`. -/
def samePosition (a b : Position) : Bool :=
  a.column == b.column && a.row == b.row

/-- Mirrors `class Board`: `grid[col][row]`, dimensions fixed at
construction. -/
structure Board where
  width : Nat
  height : Nat
  grid : List (List Nat)
  deriving DecidableEq, Repr

namespace Board

/-- `Board::kMaxSize`. -/
def kMaxSize : Nat := 4

/-- `Board::kMinSize`. -/
def kMinSize : Nat := 2

/-- `Board::kMaxMines`. -/
def kMaxMines : Nat := 5

/-- `Board::kMinMines`. -/
def kMinMines : Nat := 1

/-- Mirrors the constructor `Board::Board(w, h)`: clamp each dimension to
`kMinSize` when out of `[kMinSize, kMaxSize]`, then fill the grid with
`None` cells. -/
def make (w h : Nat) : Board :=
  let width := if kMinSize ≤ w ∧ w ≤ kMaxSize then w else kMinSize
  let height := if kMinSize ≤ h ∧ h ≤ kMaxSize then h else kMinSize
  { width := width, height := height,
    grid := List.replicate width (List.replicate height CellStatusFlags.NoneF) }

/-- Mirrors `Board::isValidPosition`. -/
def isValidPosition (b : Board) (col row : Nat) : Bool :=
  decide (col < b.width) && decide (row < b.height)

/-- Mirrors `Board::isDisabled`: false for out-of-range input. -/
def isDisabled (b : Board) (col row : Nat) : Bool :=
  if b.isValidPosition col row then
    hasFlag ((b.grid.getD col []).getD row 0) CellStatusFlags.Disabled
  else
    false

/-- Mirrors `Board::isValidMineCount`. -/
def isValidMineCount (_b : Board) (count : Nat) : Bool :=
  decide (kMinMines ≤ count) && decide (count ≤ kMaxMines)

/-- Mirrors `Board::getCellStatus`: `None` for out-of-range input. -/
def getCellStatus (b : Board) (col row : Nat) : Nat :=
  if b.isValidPosition col row then (b.grid.getD col []).getD row 0
  else CellStatusFlags.NoneF

/-- Mirrors `Board::safeCellAccess`: apply the mutation to a valid cell,
silently no-op otherwise. -/
def safeCellAccess (b : Board) (col row : Nat) (fn : Nat → Nat) : Board :=
  if b.isValidPosition col row then
    { b with
      grid := b.grid.set col
        ((b.grid.getD col []).set row (fn ((b.grid.getD col []).getD row 0))) }
  else b

/-- Well-formedness of the grid representation: the outer list has `width`
entries and every column has `height` entries.  The constructor
establishes it and every operation preserves it. -/
def WF (b : Board) : Prop :=
  b.grid.length = b.width ∧ ∀ l ∈ b.grid, l.length = b.height

instance (b : Board) : Decidable b.WF := by
  unfold WF; infer_instance

end Board

theorem Board.make_WF (w h : Nat) : (Board.make w h).WF := by
  constructor
  · simp [Board.make]
  · intro l hl
    simp only [Board.make, List.mem_replicate] at hl
    simp [Board.make, hl.2]

theorem Board.width_safeCellAccess (b : Board) (c r : Nat) (fn : Nat → Nat) :
    (b.safeCellAccess c r fn).width = b.width := by
  unfold Board.safeCellAccess
  split <;> rfl

theorem Board.height_safeCellAccess (b : Board) (c r : Nat) (fn : Nat → Nat) :
    (b.safeCellAccess c r fn).height = b.height := by
  unfold Board.safeCellAccess
  split <;> rfl

theorem Board.WF_safeCellAccess (b : Board) (c r : Nat) (fn : Nat → Nat)
    (h : b.WF) : (b.safeCellAccess c r fn).WF := by
  unfold Board.safeCellAccess
  split
  · refine ⟨?_, ?_⟩
    · simpa using h.1
    · intro l hl
      simp only at hl
      rcases List.mem_or_eq_of_mem_set hl with hmem | heq
      · exact h.2 l hmem
      · subst heq
        simp only [List.length_set]
        rename_i hvalid
        unfold Board.isValidPosition at hvalid
        simp only [Bool.and_eq_true, decide_eq_true_eq] at hvalid
        have hc : c < b.grid.length := by rw [h.1]; exact hvalid.1
        rw [List.getD_eq_getElem _ _ hc]
        exact h.2 _ (List.getElem_mem hc)
  · exact h

theorem Board.isValidPosition_safeCellAccess (b : Board) (c r c' r' : Nat)
    (fn : Nat → Nat) :
    (b.safeCellAccess c r fn).isValidPosition c' r' = b.isValidPosition c' r' := by
  unfold Board.isValidPosition
  rw [Board.width_safeCellAccess, Board.height_safeCellAccess]

theorem Board.getCellStatus_not_valid (b : Board) (c r : Nat)
    (h : b.isValidPosition c r = false) :
    b.getCellStatus c r = CellStatusFlags.NoneF := by
  unfold Board.getCellStatus
  rw [h]
  simp

theorem List.getD_set_eq {α : Type} (l : List α) (i : Nat) (a d : α)
    (h : i < l.length) : (l.set i a).getD i d = a := by
  rw [List.getD_eq_getElem?_getD, List.getElem?_set_self h, Option.getD_some]

theorem List.getD_set_ne {α : Type} (l : List α) (i j : Nat) (a d : α)
    (h : i ≠ j) : (l.set i a).getD j d = l.getD j d := by
  rw [List.getD_eq_getElem?_getD, List.getElem?_set_ne h,
    ← List.getD_eq_getElem?_getD]

theorem Board.getCellStatus_safeCellAccess_self (b : Board) (c r : Nat)
    (fn : Nat → Nat) (hWF : b.WF) (hv : b.isValidPosition c r = true) :
    (b.safeCellAccess c r fn).getCellStatus c r = fn (b.getCellStatus c r) := by
  have hvp : c < b.width ∧ r < b.height := by
    simpa [Board.isValidPosition] using hv
  have hc : c < b.grid.length := by rw [hWF.1]; exact hvp.1
  have hr : r < (b.grid.getD c []).length := by
    rw [List.getD_eq_getElem _ _ hc, hWF.2 _ (List.getElem_mem hc)]
    exact hvp.2
  unfold Board.safeCellAccess
  rw [if_pos hv]
  unfold Board.getCellStatus
  have hv' : (Board.mk b.width b.height
      (b.grid.set c ((b.grid.getD c []).set r
        (fn ((b.grid.getD c []).getD r 0))))).isValidPosition c r = true := hv
  rw [if_pos hv']
  rw [if_pos hv]
  simp only
  rw [List.getD_set_eq _ _ _ _ hc, List.getD_set_eq _ _ _ _ hr]

theorem Board.getCellStatus_safeCellAccess_ne (b : Board) (c r c' r' : Nat)
    (fn : Nat → Nat) (hWF : b.WF) (hne : c ≠ c' ∨ r ≠ r') :
    (b.safeCellAccess c r fn).getCellStatus c' r' = b.getCellStatus c' r' := by
  unfold Board.safeCellAccess
  by_cases hv : b.isValidPosition c r = true
  case neg =>
    rw [if_neg (by simpa using hv)]
  case pos =>
    rw [if_pos hv]
    unfold Board.getCellStatus
    have hvsame : (Board.mk b.width b.height
        (b.grid.set c ((b.grid.getD c []).set r
          (fn ((b.grid.getD c []).getD r 0))))).isValidPosition c' r'
        = b.isValidPosition c' r' := rfl
    rw [hvsame]
    by_cases hv' : b.isValidPosition c' r' = true
    case neg =>
      rw [if_neg (by simpa using hv'), if_neg (by simpa using hv')]
    case pos =>
      rw [if_pos hv', if_pos hv']
      simp only
      rcases hne with hcc | hrr
      · rw [List.getD_set_ne _ _ _ _ _ hcc]
      · by_cases hcc : c = c'
        · subst hcc
          have hc : c < b.grid.length := by
            rw [hWF.1]
            have hvb : c < b.width ∧ r < b.height := by
              simpa [Board.isValidPosition] using hv
            exact hvb.1
          rw [List.getD_set_eq _ _ _ _ hc, List.getD_set_ne _ _ _ _ _ hrr]
        · rw [List.getD_set_ne _ _ _ _ _ hcc]

/-- Apply one cell mutation, through the bounds-checked accessor, at every
position of a list in order (the shape shared by every board-mutating loop
of the source). -/
def applyAll (fn : Nat → Nat) (b : Board) (ps : List Position) : Board :=
  ps.foldl (fun bd p => bd.safeCellAccess p.column p.row fn) b

theorem applyAll_cons (fn : Nat → Nat) (b : Board) (p : Position)
    (ps : List Position) :
    applyAll fn b (p :: ps) = applyAll fn (b.safeCellAccess p.column p.row fn) ps := rfl

theorem applyAll_append (fn : Nat → Nat) (b : Board) (l1 l2 : List Position) :
    applyAll fn b (l1 ++ l2) = applyAll fn (applyAll fn b l1) l2 := by
  unfold applyAll
  exact List.foldl_append ..

theorem width_applyAll (fn : Nat → Nat) (ps : List Position) :
    ∀ b : Board, (applyAll fn b ps).width = b.width := by
  induction ps with
  | nil => intro b; rfl
  | cons p ps ih =>
    intro b
    rw [applyAll_cons, ih, Board.width_safeCellAccess]

theorem height_applyAll (fn : Nat → Nat) (ps : List Position) :
    ∀ b : Board, (applyAll fn b ps).height = b.height := by
  induction ps with
  | nil => intro b; rfl
  | cons p ps ih =>
    intro b
    rw [applyAll_cons, ih, Board.height_safeCellAccess]

theorem WF_applyAll (fn : Nat → Nat) (ps : List Position) :
    ∀ b : Board, b.WF → (applyAll fn b ps).WF := by
  induction ps with
  | nil => intro b h; exact h
  | cons p ps ih =>
    intro b h
    rw [applyAll_cons]
    exact ih _ (Board.WF_safeCellAccess _ _ _ _ h)

theorem isValidPosition_applyAll (fn : Nat → Nat) (ps : List Position)
    (b : Board) (c r : Nat) :
    (applyAll fn b ps).isValidPosition c r = b.isValidPosition c r := by
  unfold Board.isValidPosition
  rw [width_applyAll, height_applyAll]

/-- Pointwise effect of `applyAll` for an idempotent mutation: a cell is
mutated (once) iff some listed position targets it and it is in range. -/
theorem getCellStatus_applyAll (fn : Nat → Nat)
    (hidem : ∀ s, fn (fn s) = fn s) (ps : List Position) (c r : Nat) :
    ∀ b : Board, b.WF →
      (applyAll fn b ps).getCellStatus c r =
        if (∃ p ∈ ps, p.column = c ∧ p.row = r) ∧ b.isValidPosition c r = true
        then fn (b.getCellStatus c r) else b.getCellStatus c r := by
  induction ps with
  | nil =>
    intro b _
    simp [applyAll]
  | cons p ps ih =>
    intro b hWF
    rw [applyAll_cons, ih _ (Board.WF_safeCellAccess _ _ _ _ hWF)]
    by_cases hm : p.column = c ∧ p.row = r
    · obtain ⟨hpc, hpr⟩ := hm
      by_cases hv : b.isValidPosition c r = true
      · have h1 : (b.safeCellAccess p.column p.row fn).getCellStatus c r
            = fn (b.getCellStatus c r) := by
          rw [hpc, hpr]
          exact Board.getCellStatus_safeCellAccess_self b c r fn hWF hv
        rw [Board.isValidPosition_safeCellAccess, h1]
        by_cases hrest : ∃ q ∈ ps, q.column = c ∧ q.row = r
        · rw [if_pos ⟨hrest, hv⟩, if_pos ⟨⟨p, by simp, hpc, hpr⟩, hv⟩, hidem]
        · rw [if_neg (fun hcon => hrest hcon.1),
            if_pos ⟨⟨p, by simp, hpc, hpr⟩, hv⟩]
      · have hb : b.safeCellAccess p.column p.row fn = b := by
          unfold Board.safeCellAccess
          rw [hpc, hpr, if_neg (by simpa using hv)]
        rw [hb, if_neg (fun hcon => hv hcon.2), if_neg (fun hcon => hv hcon.2)]
    · have hne : p.column ≠ c ∨ p.row ≠ r := by
        by_contra hcon
        push_neg at hcon
        exact hm ⟨hcon.1, hcon.2⟩
      have h1 : (b.safeCellAccess p.column p.row fn).getCellStatus c r
          = b.getCellStatus c r :=
        Board.getCellStatus_safeCellAccess_ne b p.column p.row c r fn hWF hne
      rw [Board.isValidPosition_safeCellAccess, h1]
      by_cases hrest : ∃ q ∈ ps, q.column = c ∧ q.row = r
      · by_cases hv : b.isValidPosition c r = true
        · rw [if_pos ⟨hrest, hv⟩, if_pos ⟨⟨hrest.choose, by
            simp [hrest.choose_spec.1], hrest.choose_spec.2⟩, hv⟩]
        · rw [if_neg (fun hcon => hv hcon.2), if_neg (fun hcon => hv hcon.2)]
      · rw [if_neg (fun hcon => hrest hcon.1), if_neg]
        intro hcon
        rcases hcon.1 with ⟨q, hq, hqc⟩
        rcases List.mem_cons.mp hq with hq1 | hq2
        · exact hm (hq1 ▸ hqc)
        · exact hrest ⟨q, hq2, hqc⟩

/-- A cell after `applyAll` is either the mutated or the original status. -/
theorem getCellStatus_applyAll_cases (fn : Nat → Nat)
    (hidem : ∀ s, fn (fn s) = fn s) (ps : List Position) (c r : Nat)
    (b : Board) (hWF : b.WF) :
    (applyAll fn b ps).getCellStatus c r = fn (b.getCellStatus c r)
    ∨ (applyAll fn b ps).getCellStatus c r = b.getCellStatus c r := by
  rw [getCellStatus_applyAll fn hidem ps c r b hWF]
  split
  · exact Or.inl rfl
  · exact Or.inr rfl

theorem hasFlag_pow (s k : Nat) : hasFlag s (2 ^ k) = s.testBit k := by
  have hne : (2 ^ k : Nat) ≠ CellStatusFlags.NoneF := by
    simp [CellStatusFlags.NoneF, (Nat.two_pow_pos k).ne']
  unfold hasFlag
  rw [if_neg hne, Nat.and_two_pow]
  cases h : s.testBit k <;> simp [(Nat.two_pow_pos k).ne, (Nat.two_pow_pos k).ne']

theorem hasFlag_Disabled (s : Nat) :
    hasFlag s CellStatusFlags.Disabled = s.testBit 0 := by
  have h : CellStatusFlags.Disabled = 2 ^ 0 := by decide
  rw [h, hasFlag_pow]

theorem hasFlag_HasMine (s : Nat) :
    hasFlag s CellStatusFlags.HasMine = s.testBit 1 := by
  have h : CellStatusFlags.HasMine = 2 ^ 1 := by decide
  rw [h, hasFlag_pow]

theorem hasFlag_WasGuessed (s : Nat) :
    hasFlag s CellStatusFlags.WasGuessed = s.testBit 2 := by
  have h : CellStatusFlags.WasGuessed = 2 ^ 2 := by decide
  rw [h, hasFlag_pow]

theorem hasFlag_SelfDetonated (s : Nat) :
    hasFlag s CellStatusFlags.SelfDetonated = s.testBit 3 := by
  have h : CellStatusFlags.SelfDetonated = 2 ^ 3 := by decide
  rw [h, hasFlag_pow]

theorem hasFlag_HadCollision (s : Nat) :
    hasFlag s CellStatusFlags.HadCollision = s.testBit 4 := by
  have h : CellStatusFlags.HadCollision = 2 ^ 4 := by decide
  rw [h, hasFlag_pow]

theorem testBit_compl32 (a k : Nat) (hk : k < 32) :
    (compl32 a).testBit k = !a.testBit k := by
  unfold compl32 UINT32_MAX
  rw [Nat.testBit_xor, Nat.testBit_two_pow_sub_one]
  simp [hk]

/-- The collision mutation applied by `utils::removeCollidingMines`. -/
def collisionFn (status : Nat) : Nat :=
  ((status ||| CellStatusFlags.HadCollision) ||| CellStatusFlags.Disabled)
    &&& compl32 CellStatusFlags.HasMine

/-- The self-detonation mutation applied by `game::resolveSelfDetonation`. -/
def selfDetFn (status : Nat) : Nat :=
  ((status ||| CellStatusFlags.Disabled) ||| CellStatusFlags.SelfDetonated)
    &&& compl32 CellStatusFlags.HasMine

/-- The mine-placement mutation applied by `game::collectPositions` when
`markMinesOnBoard` is set. -/
def placeMineFn (status : Nat) : Nat := status ||| CellStatusFlags.HasMine

/-- The mutation applied by `game::clearMines` at every cell. -/
def clearMineFn (status : Nat) : Nat :=
  status &&& compl32 CellStatusFlags.HasMine

/-- The mutation applied by `game::disableGuessedPositions`. -/
def disableFn (status : Nat) : Nat :=
  status ||| (CellStatusFlags.Disabled ||| CellStatusFlags.WasGuessed)

theorem collisionFn_idem (s : Nat) :
    collisionFn (collisionFn s) = collisionFn s := by
  unfold collisionFn
  apply Nat.eq_of_testBit_eq
  intro i
  simp only [Nat.testBit_or, Nat.testBit_and]
  cases s.testBit i <;> cases (CellStatusFlags.HadCollision).testBit i <;>
    cases (CellStatusFlags.Disabled).testBit i <;>
    cases (compl32 CellStatusFlags.HasMine).testBit i <;> rfl

theorem selfDetFn_idem (s : Nat) : selfDetFn (selfDetFn s) = selfDetFn s := by
  unfold selfDetFn
  apply Nat.eq_of_testBit_eq
  intro i
  simp only [Nat.testBit_or, Nat.testBit_and]
  cases s.testBit i <;> cases (CellStatusFlags.Disabled).testBit i <;>
    cases (CellStatusFlags.SelfDetonated).testBit i <;>
    cases (compl32 CellStatusFlags.HasMine).testBit i <;> rfl

theorem placeMineFn_idem (s : Nat) :
    placeMineFn (placeMineFn s) = placeMineFn s := by
  unfold placeMineFn
  rw [Nat.or_assoc, Nat.or_self]

theorem clearMineFn_idem (s : Nat) :
    clearMineFn (clearMineFn s) = clearMineFn s := by
  unfold clearMineFn
  rw [Nat.and_assoc, Nat.and_self]

theorem disableFn_idem (s : Nat) : disableFn (disableFn s) = disableFn s := by
  unfold disableFn
  rw [Nat.or_assoc, Nat.or_self]

/-- Recursion underlying `utils::removeCollidingMines`: walk `ownMines`;
a mine matching some opponent mine is recorded as a collision and its cell
marked `HadCollision | Disabled` with `HasMine` cleared; the others are
kept.  Returns (kept mines, collision log, board). -/
def removeCollidingMinesAux (opponentMines : List Position) :
    List Position → List Position → Board → List Position × List Position × Board
  | [], collisions, b => ([], collisions, b)
  | mine :: rest, collisions, b =>
    if opponentMines.any (fun oppMine => samePosition mine oppMine) then
      removeCollidingMinesAux opponentMines rest (collisions ++ [mine])
        (b.safeCellAccess mine.column mine.row collisionFn)
    else
      let res := removeCollidingMinesAux opponentMines rest collisions b
      (mine :: res.1, res.2.1, res.2.2)

/-- Mirrors `utils::removeCollidingMines`. -/
def removeCollidingMines (ownMines opponentMines collisions : List Position)
    (b : Board) : List Position × List Position × Board :=
  removeCollidingMinesAux opponentMines ownMines collisions b

/-- Mirrors `utils::keepNonCollidingMines`. -/
def keepNonCollidingMines (ownMines opponentMines : List Position) :
    List Position :=
  ownMines.filter
    (fun mine => !(opponentMines.any (fun oppMine => samePosition mine oppMine)))

/-- Mirrors `game::detectAndRemoveCollisions`: drop colliding mines from
both lists, annotate the board, and decrement each player's
`remainingMines` by their own removed count, guarded against underflow. -/
def detectAndRemoveCollisions (p1 p2 : Player) (b : Board) :
    Player × Player × Board :=
  let rcm := removeCollidingMines p1.currentMines p2.currentMines [] b
  let newMines1 := rcm.1
  let newMines2 := keepNonCollidingMines p2.currentMines p1.currentMines
  let removedByP1 := p1.currentMines.length - newMines1.length
  let removedByP2 := p2.currentMines.length - newMines2.length
  let q1 := { p1 with
    currentMines := newMines1,
    remainingMines :=
      if p1.remainingMines ≥ removedByP1 then p1.remainingMines - removedByP1
      else 0 }
  let q2 := { p2 with
    currentMines := newMines2,
    remainingMines :=
      if p2.remainingMines ≥ removedByP2 then p2.remainingMines - removedByP2
      else 0 }
  (q1, q2, rcm.2.2)

/-- Mirrors `game::clearMines`: strip `HasMine` from every cell of the
grid (the dimensions are immutable, so the loop bounds are the initial
width and height). -/
def clearMines (b : Board) : Board :=
  (List.range b.width).foldl
    (fun bd c =>
      (List.range b.height).foldl
        (fun bd2 r => bd2.safeCellAccess c r clearMineFn) bd)
    b

/-- Mirrors `game::countHits`: count the attacks matching some mine of the
defender (the inner loop of the source breaks at the first match). -/
def countHits (defender : Player) (attacks : List Position) : Nat :=
  attacks.foldl
    (fun hits guess =>
      if defender.currentMines.any (fun mine => samePosition guess mine) then
        hits + 1
      else hits)
    0

/-- Recursion underlying `game::resolveSelfDetonation`: a mine matching one
of the player's own guesses is destroyed (cell marked
`Disabled | SelfDetonated`, `HasMine` cleared, hit counted); the others
are kept.  Returns (kept mines, board, self-hit count). -/
def resolveSelfDetonationAux (guesses : List Position) :
    List Position → Board → List Position × Board × Nat
  | [], b => ([], b, 0)
  | mine :: rest, b =>
    if guesses.any (fun guess => samePosition mine guess) then
      let res := resolveSelfDetonationAux guesses rest
        (b.safeCellAccess mine.column mine.row selfDetFn)
      (res.1, res.2.1, res.2.2 + 1)
    else
      let res := resolveSelfDetonationAux guesses rest b
      (mine :: res.1, res.2.1, res.2.2)

/-- Mirrors `game::resolveSelfDetonation`. -/
def resolveSelfDetonation (player : Player) (b : Board) :
    Player × Board × Nat :=
  let res := resolveSelfDetonationAux player.currentGuesses player.currentMines b
  ({ player with currentMines := res.1 }, res.2.1, res.2.2)

/-- Mirrors `game::disableGuessedPositions`. -/
def disableGuessedPositions (guesses : List Position) (b : Board) : Board :=
  guesses.foldl
    (fun bd guess => bd.safeCellAccess guess.column guess.row disableFn) b

/-- The outcome `game::checkGameEnd` reports on the console; `ongoing`
corresponds to the function returning `false`. -/
inductive GameOutcome where
  | draw
  | p1Wins
  | p2Wins
  | ongoing
  deriving DecidableEq, Repr

/-- Mirrors `game::checkGameEnd` (the `remainingMines` counters are
unsigned, so `<= 0` means `= 0`). -/
def checkGameEnd (p1 p2 : Player) : GameOutcome :=
  if p1.remainingMines ≤ 0 ∧ p2.remainingMines ≤ 0 then GameOutcome.draw
  else if p1.remainingMines ≤ 0 then GameOutcome.p2Wins
  else if p2.remainingMines ≤ 0 then GameOutcome.p1Wins
  else GameOutcome.ongoing

/-- The boolean `game::checkGameEnd` returns: whether the loop finishes. -/
def gameEnded (p1 p2 : Player) : Bool :=
  decide (checkGameEnd p1 p2 ≠ GameOutcome.ongoing)

/-- Lines 546-556 of `game::runMainLoop`: hit counting against the
post-collision mine lists, the two guarded hit decrements, then the two
self-detonation passes and their guarded decrements. -/
def resolveCombat (p1 p2 : Player) (b : Board) : Player × Player × Board :=
  let hits1 := countHits p2 p1.currentGuesses
  let hits2 := countHits p1 p2.currentGuesses
  let q2 := { p2 with remainingMines :=
    if p2.remainingMines ≥ hits1 then p2.remainingMines - hits1 else 0 }
  let q1 := { p1 with remainingMines :=
    if p1.remainingMines ≥ hits2 then p1.remainingMines - hits2 else 0 }
  let rsd1 := resolveSelfDetonation q1 b
  let rsd2 := resolveSelfDetonation q2 rsd1.2.1
  let r1 := { rsd1.1 with remainingMines :=
    if rsd1.1.remainingMines ≥ rsd1.2.2 then rsd1.1.remainingMines - rsd1.2.2
    else 0 }
  let r2 := { rsd2.1 with remainingMines :=
    if rsd2.1.remainingMines ≥ rsd2.2.2 then rsd2.1.remainingMines - rsd2.2.2
    else 0 }
  (r1, r2, rsd2.2.1)

/-- The accepted positions of one round, supplied by the input/random
collaborators through `game::collectPositions`. -/
structure RoundChoice where
  mines1 : List Position
  mines2 : List Position
  guesses1 : List Position
  guesses2 : List Position
  deriving DecidableEq, Repr

/-- The `HasMine` marking `game::placeMines` performs for a list of
accepted placements. -/
def markMines (b : Board) (ps : List Position) : Board :=
  ps.foldl (fun bd pos => bd.safeCellAccess pos.column pos.row placeMineFn) b

/-- One iteration of the `game::runMainLoop` body, lines 538-559, with the
players' accepted placements and guesses taken as inputs: clear mines,
install and mark both placements, resolve collisions, install guesses,
resolve hits and self-detonations, disable guessed cells. -/
def playRound (p1 p2 : Player) (b : Board) (ch : RoundChoice) :
    Player × Player × Board :=
  let b1 := clearMines b
  let p1a := { p1 with currentMines := ch.mines1 }
  let b2 := markMines b1 ch.mines1
  let p2a := { p2 with currentMines := ch.mines2 }
  let b3 := markMines b2 ch.mines2
  let dc := detectAndRemoveCollisions p1a p2a b3
  let p1b := { dc.1 with currentGuesses := ch.guesses1 }
  let p2b := { dc.2.1 with currentGuesses := ch.guesses2 }
  let cb := resolveCombat p1b p2b dc.2.2
  let b4 := disableGuessedPositions cb.1.currentGuesses cb.2.2
  let b5 := disableGuessedPositions cb.2.1.currentGuesses b4
  (cb.1, cb.2.1, b5)

/-- The mutable state of `game::runMainLoop`. -/
structure GameState where
  p1 : Player
  p2 : Player
  board : Board
  deriving DecidableEq, Repr

/-- `playRound` on a packed game state. -/
def playRoundState (st : GameState) (ch : RoundChoice) : GameState :=
  let res := playRound st.p1 st.p2 st.board ch
  { p1 := res.1, p2 := res.2.1, board := res.2.2 }

/-- Fuel-bounded model of the `while (!finished)` loop of
`game::runMainLoop`: `oracle` supplies each round's collected positions;
the loop exits exactly when `checkGameEnd` reports a terminal outcome,
and `none` means the fuel ran out with the game still ongoing. -/
def runMainLoop (oracle : Nat → RoundChoice) :
    Nat → Nat → GameState → Option (GameState × Nat)
  | 0, _, _ => none
  | fuel + 1, round, st =>
    let st2 := playRoundState st (oracle round)
    if gameEnded st2.p1 st2.p2 then some (st2, round)
    else runMainLoop oracle fuel (round + 1) st2

/-- One acceptance test of the `while (targetList.size() < count)` loop in
`game::collectPositions`: a candidate equal to an already-chosen position
is rejected, any other is appended. -/
def collectStep (targetList : List Position) (pos : Position) : List Position :=
  if targetList.any (fun p => samePosition p pos) then targetList
  else targetList ++ [pos]

/-- Fuel-bounded model of the collection loop of `game::collectPositions`:
`cand` is the stream of candidate positions the input/random collaborators
produce; the loop stops once `count` positions are accepted, and `none`
means no number of candidates within the fuel ever filled the list. -/
def collectPositionsLoop (cand : Nat → Position) (count : Nat) :
    Nat → Nat → List Position → Option (List Position)
  | 0, _, acc => if count ≤ acc.length then some acc else none
  | fuel + 1, i, acc =>
    if count ≤ acc.length then some acc
    else collectPositionsLoop cand count fuel (i + 1) (collectStep acc (cand i))

/-- Every position of the grid, row-major per column. -/
def allCells (b : Board) : List Position :=
  (List.range b.width).flatMap
    (fun c => (List.range b.height).map (fun r => Position.mk c r))

/-- The cells a candidate position may land on: in range and not disabled
(the guarantee of `utils::requestPosition` / `generateRandomPosition`). -/
def availableCells (b : Board) : List Position :=
  (allCells b).filter (fun pos => !(b.isDisabled pos.column pos.row))

theorem samePosition_iff (a b : Position) : samePosition a b = true ↔ a = b := by
  cases a
  cases b
  simp [samePosition]

/-- Closed form of the `removeCollidingMines` walk: kept mines are the
non-colliding ones, the collision log gains the colliding ones in order,
and the board receives the collision mutation at every colliding mine. -/
theorem removeCollidingMinesAux_spec (opp : List Position) :
    ∀ (mines collisions : List Position) (b : Board),
      removeCollidingMinesAux opp mines collisions b
        = (mines.filter (fun m => !(opp.any (fun o => samePosition m o))),
           collisions ++ mines.filter (fun m => opp.any (fun o => samePosition m o)),
           applyAll collisionFn b
             (mines.filter (fun m => opp.any (fun o => samePosition m o)))) := by
  intro mines
  induction mines with
  | nil =>
    intro collisions b
    simp [removeCollidingMinesAux, applyAll]
  | cons m rest ih =>
    intro collisions b
    unfold removeCollidingMinesAux
    by_cases h : opp.any (fun o => samePosition m o) = true
    · rw [if_pos h, ih]
      simp [List.filter_cons, h, applyAll_cons]
    · rw [if_neg h, ih]
      simp only [List.filter_cons, h, Bool.not_false, if_pos, Bool.false_eq_true,
        if_neg]
      simp [Bool.not_eq_true] at h
      simp [h]

/-- Closed form of the `resolveSelfDetonation` walk. -/
theorem resolveSelfDetonationAux_spec (guesses : List Position) :
    ∀ (mines : List Position) (b : Board),
      resolveSelfDetonationAux guesses mines b
        = (mines.filter (fun m => !(guesses.any (fun g => samePosition m g))),
           applyAll selfDetFn b
             (mines.filter (fun m => guesses.any (fun g => samePosition m g))),
           (mines.filter (fun m => guesses.any (fun g => samePosition m g))).length) := by
  intro mines
  induction mines with
  | nil =>
    intro b
    simp [resolveSelfDetonationAux, applyAll]
  | cons m rest ih =>
    intro b
    unfold resolveSelfDetonationAux
    by_cases h : guesses.any (fun g => samePosition m g) = true
    · rw [if_pos h, ih]
      simp [List.filter_cons, h, applyAll_cons]
    · rw [if_neg h, ih]
      have hb : guesses.any (fun g => samePosition m g) = false := by
        simpa using h
      simp [List.filter_cons, hb]

theorem countHits_go (p : Position → Bool) :
    ∀ (l : List Position) (n : Nat),
      l.foldl (fun hits g => if p g then hits + 1 else hits) n
        = n + l.countP p := by
  intro l
  induction l with
  | nil => intro n; simp
  | cons g l ih =>
    intro n
    rw [List.foldl_cons, List.countP_cons]
    by_cases h : p g = true
    · rw [if_pos h, ih, h]
      simp only [if_true]
      omega
    · rw [if_neg h, ih]
      simp [Bool.not_eq_true] at h
      simp [h]

/-- `countHits` counts the attacks that match some defending mine. -/
theorem countHits_eq_countP (defender : Player) (attacks : List Position) :
    countHits defender attacks
      = attacks.countP
          (fun g => defender.currentMines.any (fun m => samePosition g m)) := by
  unfold countHits
  rw [countHits_go]
  simp

theorem nested_foldl_applyAll (fn : Nat → Nat) (R : List Nat) :
    ∀ (L : List Nat) (b : Board),
      L.foldl (fun bd c => R.foldl (fun bd2 r => bd2.safeCellAccess c r fn) bd) b
        = applyAll fn b (L.flatMap (fun c => R.map (fun r => Position.mk c r))) := by
  intro L
  induction L with
  | nil => intro b; rfl
  | cons c L ih =>
    intro b
    rw [List.foldl_cons, ih, List.flatMap_cons, applyAll_append]
    congr 1
    unfold applyAll
    rw [List.foldl_map]

theorem clearMines_eq_applyAll (b : Board) :
    clearMines b = applyAll clearMineFn b (allCells b) := by
  unfold clearMines allCells
  exact nested_foldl_applyAll clearMineFn (List.range b.height) (List.range b.width) b

theorem mem_allCells (b : Board) (p : Position) :
    p ∈ allCells b ↔ p.column < b.width ∧ p.row < b.height := by
  cases p
  simp [allCells]

/-- Pointwise effect of `clearMines`: every cell loses exactly its
`HasMine` bit. -/
theorem getCellStatus_clearMines (b : Board) (hWF : b.WF) (c r : Nat) :
    (clearMines b).getCellStatus c r
      = (b.getCellStatus c r) &&& compl32 CellStatusFlags.HasMine := by
  rw [clearMines_eq_applyAll,
    getCellStatus_applyAll clearMineFn clearMineFn_idem _ c r b hWF]
  by_cases hv : b.isValidPosition c r = true
  · rw [if_pos ⟨⟨Position.mk c r,
      (mem_allCells b _).mpr (by simpa [Board.isValidPosition] using hv),
      rfl, rfl⟩, hv⟩]
    rfl
  · rw [if_neg (fun hcon => hv hcon.2),
      Board.getCellStatus_not_valid _ _ _ (by simpa using hv)]
    simp [CellStatusFlags.NoneF]

theorem guard_sub_le (r k : Nat) : (if r ≥ k then r - k else 0) ≤ r := by
  split <;> omega

theorem markMines_eq_applyAll (b : Board) (ps : List Position) :
    markMines b ps = applyAll placeMineFn b ps := rfl

theorem disableGuessedPositions_eq_applyAll (guesses : List Position)
    (b : Board) :
    disableGuessedPositions guesses b = applyAll disableFn b guesses := rfl

/-- The board produced by `detectAndRemoveCollisions` carries the collision
mutation at exactly player 1's colliding mines. -/
theorem board_detectAndRemoveCollisions (p1 p2 : Player) (b : Board) :
    (detectAndRemoveCollisions p1 p2 b).2.2
      = applyAll collisionFn b
          (p1.currentMines.filter
            (fun m => p2.currentMines.any (fun o => samePosition m o))) := by
  unfold detectAndRemoveCollisions removeCollidingMines
  rw [removeCollidingMinesAux_spec]

theorem mines_detectAndRemoveCollisions (p1 p2 : Player) (b : Board) :
    (detectAndRemoveCollisions p1 p2 b).1.currentMines
      = p1.currentMines.filter
          (fun m => !(p2.currentMines.any (fun o => samePosition m o)))
    ∧ (detectAndRemoveCollisions p1 p2 b).2.1.currentMines
      = keepNonCollidingMines p2.currentMines p1.currentMines := by
  unfold detectAndRemoveCollisions removeCollidingMines
  rw [removeCollidingMinesAux_spec]
  exact ⟨rfl, rfl⟩

theorem remainingMines_detectAndRemoveCollisions (p1 p2 : Player) (b : Board) :
    (detectAndRemoveCollisions p1 p2 b).1.remainingMines
      = (if p1.remainingMines ≥
            p1.currentMines.length
              - (detectAndRemoveCollisions p1 p2 b).1.currentMines.length
          then p1.remainingMines
            - (p1.currentMines.length
              - (detectAndRemoveCollisions p1 p2 b).1.currentMines.length)
          else 0)
    ∧ (detectAndRemoveCollisions p1 p2 b).2.1.remainingMines
      = (if p2.remainingMines ≥
            p2.currentMines.length
              - (detectAndRemoveCollisions p1 p2 b).2.1.currentMines.length
          then p2.remainingMines
            - (p2.currentMines.length
              - (detectAndRemoveCollisions p1 p2 b).2.1.currentMines.length)
          else 0) := by
  unfold detectAndRemoveCollisions removeCollidingMines
  exact ⟨rfl, rfl⟩

theorem detect_remainingMines_le (p1 p2 : Player) (b : Board) :
    (detectAndRemoveCollisions p1 p2 b).1.remainingMines ≤ p1.remainingMines
    ∧ (detectAndRemoveCollisions p1 p2 b).2.1.remainingMines
        ≤ p2.remainingMines := by
  rw [(remainingMines_detectAndRemoveCollisions p1 p2 b).1,
    (remainingMines_detectAndRemoveCollisions p1 p2 b).2]
  exact ⟨guard_sub_le _ _, guard_sub_le _ _⟩

theorem resolveSelfDetonation_remainingMines (player : Player) (b : Board) :
    (resolveSelfDetonation player b).1.remainingMines
      = player.remainingMines := rfl

theorem resolveSelfDetonation_guesses (player : Player) (b : Board) :
    (resolveSelfDetonation player b).1.currentGuesses
      = player.currentGuesses := rfl

/-- Components of `resolveCombat` for player 1: the guarded hit decrement
followed by the guarded self-detonation decrement, where the
self-detonation count is taken over the full post-collision mine list. -/
theorem resolveCombat_p1 (p1 p2 : Player) (b : Board) :
    (resolveCombat p1 p2 b).1.remainingMines
      = (if (if p1.remainingMines ≥ countHits p1 p2.currentGuesses
              then p1.remainingMines - countHits p1 p2.currentGuesses else 0)
            ≥ (p1.currentMines.filter
                (fun m => p1.currentGuesses.any (fun g => samePosition m g))).length
          then (if p1.remainingMines ≥ countHits p1 p2.currentGuesses
              then p1.remainingMines - countHits p1 p2.currentGuesses else 0)
            - (p1.currentMines.filter
                (fun m => p1.currentGuesses.any (fun g => samePosition m g))).length
          else 0)
    ∧ (resolveCombat p1 p2 b).1.currentMines
      = p1.currentMines.filter
          (fun m => !(p1.currentGuesses.any (fun g => samePosition m g))) := by
  simp only [resolveCombat, resolveSelfDetonation, resolveSelfDetonationAux_spec]
  exact ⟨trivial, trivial⟩

/-- Components of `resolveCombat` for player 2, symmetric to player 1. -/
theorem resolveCombat_p2 (p1 p2 : Player) (b : Board) :
    (resolveCombat p1 p2 b).2.1.remainingMines
      = (if (if p2.remainingMines ≥ countHits p2 p1.currentGuesses
              then p2.remainingMines - countHits p2 p1.currentGuesses else 0)
            ≥ (p2.currentMines.filter
                (fun m => p2.currentGuesses.any (fun g => samePosition m g))).length
          then (if p2.remainingMines ≥ countHits p2 p1.currentGuesses
              then p2.remainingMines - countHits p2 p1.currentGuesses else 0)
            - (p2.currentMines.filter
                (fun m => p2.currentGuesses.any (fun g => samePosition m g))).length
          else 0)
    ∧ (resolveCombat p1 p2 b).2.1.currentMines
      = p2.currentMines.filter
          (fun m => !(p2.currentGuesses.any (fun g => samePosition m g))) := by
  simp only [resolveCombat, resolveSelfDetonation, resolveSelfDetonationAux_spec]
  exact ⟨trivial, trivial⟩

theorem combat_remainingMines_le (p1 p2 : Player) (b : Board) :
    (resolveCombat p1 p2 b).1.remainingMines ≤ p1.remainingMines
    ∧ (resolveCombat p1 p2 b).2.1.remainingMines ≤ p2.remainingMines := by
  constructor
  · rw [(resolveCombat_p1 p1 p2 b).1]
    exact le_trans (guard_sub_le _ _) (guard_sub_le _ _)
  · rw [(resolveCombat_p2 p1 p2 b).1]
    exact le_trans (guard_sub_le _ _) (guard_sub_le _ _)

theorem playRound_players (p1 p2 : Player) (b : Board) (ch : RoundChoice) :
    (playRound p1 p2 b ch).1
      = (resolveCombat
          { (detectAndRemoveCollisions { p1 with currentMines := ch.mines1 }
              { p2 with currentMines := ch.mines2 }
              (markMines (markMines (clearMines b) ch.mines1) ch.mines2)).1
            with currentGuesses := ch.guesses1 }
          { (detectAndRemoveCollisions { p1 with currentMines := ch.mines1 }
              { p2 with currentMines := ch.mines2 }
              (markMines (markMines (clearMines b) ch.mines1) ch.mines2)).2.1
            with currentGuesses := ch.guesses2 }
          (detectAndRemoveCollisions { p1 with currentMines := ch.mines1 }
              { p2 with currentMines := ch.mines2 }
              (markMines (markMines (clearMines b) ch.mines1) ch.mines2)).2.2).1
    ∧ (playRound p1 p2 b ch).2.1
      = (resolveCombat
          { (detectAndRemoveCollisions { p1 with currentMines := ch.mines1 }
              { p2 with currentMines := ch.mines2 }
              (markMines (markMines (clearMines b) ch.mines1) ch.mines2)).1
            with currentGuesses := ch.guesses1 }
          { (detectAndRemoveCollisions { p1 with currentMines := ch.mines1 }
              { p2 with currentMines := ch.mines2 }
              (markMines (markMines (clearMines b) ch.mines1) ch.mines2)).2.1
            with currentGuesses := ch.guesses2 }
          (detectAndRemoveCollisions { p1 with currentMines := ch.mines1 }
              { p2 with currentMines := ch.mines2 }
              (markMines (markMines (clearMines b) ch.mines1) ch.mines2)).2.2).2.1 := by
  exact ⟨rfl, rfl⟩

theorem playRound_remainingMines_le (p1 p2 : Player) (b : Board)
    (ch : RoundChoice) :
    (playRound p1 p2 b ch).1.remainingMines ≤ p1.remainingMines
    ∧ (playRound p1 p2 b ch).2.1.remainingMines ≤ p2.remainingMines := by
  rw [(playRound_players p1 p2 b ch).1, (playRound_players p1 p2 b ch).2]
  constructor
  · refine le_trans (combat_remainingMines_le _ _ _).1 ?_
    show (detectAndRemoveCollisions { p1 with currentMines := ch.mines1 }
        { p2 with currentMines := ch.mines2 }
        (markMines (markMines (clearMines b) ch.mines1) ch.mines2)).1.remainingMines
      ≤ p1.remainingMines
    exact (detect_remainingMines_le _ _ _).1
  · refine le_trans (combat_remainingMines_le _ _ _).2 ?_
    show (detectAndRemoveCollisions { p1 with currentMines := ch.mines1 }
        { p2 with currentMines := ch.mines2 }
        (markMines (markMines (clearMines b) ch.mines1) ch.mines2)).2.1.remainingMines
      ≤ p2.remainingMines
    exact (detect_remainingMines_le _ _ _).2

theorem board_resolveCombat (p1 p2 : Player) (b : Board) :
    (resolveCombat p1 p2 b).2.2
      = applyAll selfDetFn
          (applyAll selfDetFn b
            (p1.currentMines.filter
              (fun m => p1.currentGuesses.any (fun g => samePosition m g))))
          (p2.currentMines.filter
            (fun m => p2.currentGuesses.any (fun g => samePosition m g))) := by
  simp only [resolveCombat, resolveSelfDetonation, resolveSelfDetonationAux_spec]

theorem width_clearMines (b : Board) : (clearMines b).width = b.width := by
  rw [clearMines_eq_applyAll, width_applyAll]

theorem height_clearMines (b : Board) : (clearMines b).height = b.height := by
  rw [clearMines_eq_applyAll, height_applyAll]

theorem WF_clearMines (b : Board) (h : b.WF) : (clearMines b).WF := by
  rw [clearMines_eq_applyAll]
  exact WF_applyAll _ _ _ h

theorem playRound_board_dims (p1 p2 : Player) (b : Board) (ch : RoundChoice) :
    (playRound p1 p2 b ch).2.2.width = b.width
    ∧ (playRound p1 p2 b ch).2.2.height = b.height := by
  unfold playRound
  simp only [disableGuessedPositions_eq_applyAll, markMines_eq_applyAll,
    board_resolveCombat, board_detectAndRemoveCollisions, width_applyAll,
    height_applyAll, width_clearMines, height_clearMines]
  exact ⟨trivial, trivial⟩

/-- Claim C2: across every round-resolution step (collision removal in
`detectAndRemoveCollisions`, hit resolution and self-detonation in
`resolveCombat`) and hence across a whole round (`playRound`), each
player's `remainingMines` never increases; every update subtracts a
non-negative count under an underflow guard that floors the unsigned
counter at 0 (modelled by `Nat`, which is never negative). -/
theorem claim_C2_remainingMines_monotone (p1 p2 : Player) (b : Board)
    (ch : RoundChoice) :
    ((detectAndRemoveCollisions p1 p2 b).1.remainingMines ≤ p1.remainingMines
      ∧ (detectAndRemoveCollisions p1 p2 b).2.1.remainingMines
          ≤ p2.remainingMines)
    ∧ ((resolveCombat p1 p2 b).1.remainingMines ≤ p1.remainingMines
      ∧ (resolveCombat p1 p2 b).2.1.remainingMines ≤ p2.remainingMines)
    ∧ ((playRound p1 p2 b ch).1.remainingMines ≤ p1.remainingMines
      ∧ (playRound p1 p2 b ch).2.1.remainingMines ≤ p2.remainingMines) :=
  ⟨detect_remainingMines_le p1 p2 b, combat_remainingMines_le p1 p2 b,
    playRound_remainingMines_le p1 p2 b ch⟩

/-- Claim C4: bounds contract of the board: `isValidPosition` holds iff
both coordinates are in range; for out-of-range coordinates
`getCellStatus` returns the zero status, `isDisabled` returns false, and
`safeCellAccess` silently no-ops, leaving the board unchanged — no error
is ever raised. -/
theorem claim_C4_bounds_contract (b : Board) (col row : Nat) :
    (b.isValidPosition col row = true ↔ (col < b.width ∧ row < b.height))
    ∧ (¬(col < b.width ∧ row < b.height) →
        b.getCellStatus col row = CellStatusFlags.NoneF
        ∧ b.isDisabled col row = false
        ∧ ∀ fn : Nat → Nat, b.safeCellAccess col row fn = b) := by
  have hiff : b.isValidPosition col row = true
      ↔ (col < b.width ∧ row < b.height) := by
    simp [Board.isValidPosition]
  refine ⟨hiff, fun h => ?_⟩
  have hv : b.isValidPosition col row = false := by
    cases hvv : b.isValidPosition col row
    · rfl
    · exact absurd (hiff.mp hvv) h
  refine ⟨Board.getCellStatus_not_valid b col row hv, ?_, fun fn => ?_⟩
  · unfold Board.isDisabled
    rw [hv]
    simp
  · unfold Board.safeCellAccess
    rw [hv]
    simp

/-- Witness for C4: a 3×3 board with the out-of-range coordinate (5, 0). -/
theorem claim_C4_witness :
    (Board.make 3 3).getCellStatus 5 0 = CellStatusFlags.NoneF
    ∧ (Board.make 3 3).isDisabled 5 0 = false
    ∧ (Board.make 3 3).safeCellAccess 5 0 (fun s => s + 1) = Board.make 3 3 := by
  have h := (claim_C4_bounds_contract (Board.make 3 3) 5 0).2 (by decide)
  exact ⟨h.1, h.2.1, h.2.2 _⟩

/-- Claim C5: `checkGameEnd` reports a draw iff both players are out of
mines, the sole surviving player wins when exactly one is out, and the
game continues otherwise; and the round loop of `runMainLoop` exits
exactly when `checkGameEnd` reports a terminal outcome. -/
theorem claim_C5_terminal_check :
    (∀ p1 p2 : Player, checkGameEnd p1 p2 = GameOutcome.draw
        ↔ (p1.remainingMines = 0 ∧ p2.remainingMines = 0))
    ∧ (∀ p1 p2 : Player, p1.remainingMines = 0 → p2.remainingMines ≠ 0 →
        checkGameEnd p1 p2 = GameOutcome.p2Wins)
    ∧ (∀ p1 p2 : Player, p2.remainingMines = 0 → p1.remainingMines ≠ 0 →
        checkGameEnd p1 p2 = GameOutcome.p1Wins)
    ∧ (∀ p1 p2 : Player, checkGameEnd p1 p2 = GameOutcome.ongoing
        ↔ (p1.remainingMines ≠ 0 ∧ p2.remainingMines ≠ 0))
    ∧ (∀ (oracle : Nat → RoundChoice) (fuel round : Nat) (st stf : GameState)
        (k : Nat), runMainLoop oracle fuel round st = some (stf, k) →
        gameEnded stf.p1 stf.p2 = true)
    ∧ (∀ (oracle : Nat → RoundChoice) (fuel round : Nat) (st : GameState),
        gameEnded (playRoundState st (oracle round)).p1
            (playRoundState st (oracle round)).p2 = false →
        runMainLoop oracle (fuel + 1) round st
          = runMainLoop oracle fuel (round + 1) (playRoundState st (oracle round))) := by
  refine ⟨?_, ?_, ?_, ?_, ?_, ?_⟩
  · intro p1 p2
    by_cases h1 : p1.remainingMines = 0 <;> by_cases h2 : p2.remainingMines = 0 <;>
      simp [checkGameEnd, Nat.le_zero, h1, h2]
  · intro p1 p2 h1 h2
    simp [checkGameEnd, Nat.le_zero, h1, h2]
  · intro p1 p2 h2 h1
    simp [checkGameEnd, Nat.le_zero, h1, h2]
  · intro p1 p2
    by_cases h1 : p1.remainingMines = 0 <;> by_cases h2 : p2.remainingMines = 0 <;>
      simp [checkGameEnd, Nat.le_zero, h1, h2]
  · intro oracle fuel
    induction fuel with
    | zero =>
      intro round st stf k h
      exact absurd h (by simp [runMainLoop])
    | succ fuel ih =>
      intro round st stf k h
      simp only [runMainLoop] at h
      split at h
      · rename_i hg
        rw [Option.some.injEq, Prod.mk.injEq] at h
        obtain ⟨h1, _⟩ := h
        subst h1
        exact hg
      · exact ih _ _ _ _ h
  · intro oracle fuel round st h
    simp only [runMainLoop]
    rw [if_neg (by simp [h])]

/-- Witness for C5: a player with 0 mines against one with 3 loses. -/
theorem claim_C5_witness :
    checkGameEnd (Player.mk true "Player 1" 0 [] [])
      (Player.mk true "Player 2" 3 [] []) = GameOutcome.p2Wins :=
  claim_C5_terminal_check.2.1 _ _ rfl (by decide)

/-- Claim C6: `countHits` is invariant under any permutation of the attack
list and any permutation of the defender's mine list. -/
theorem claim_C6_countHits_perm_invariant (defender : Player)
    (attacks attacks2 mines2 : List Position)
    (hA : attacks.Perm attacks2) (hM : defender.currentMines.Perm mines2) :
    countHits defender attacks
      = countHits { defender with currentMines := mines2 } attacks2 := by
  rw [countHits_eq_countP, countHits_eq_countP]
  have hany : ∀ g : Position,
      (defender.currentMines.any (fun m => samePosition g m))
        = (mines2.any (fun m => samePosition g m)) := by
    intro g
    cases h2 : mines2.any (fun m => samePosition g m)
    · rw [Bool.eq_false_iff]
      intro h1
      rw [List.any_eq_true] at h1
      rcases h1 with ⟨x, hx, hpx⟩
      have hcon : mines2.any (fun m => samePosition g m) = true :=
        List.any_eq_true.mpr ⟨x, hM.mem_iff.mp hx, hpx⟩
      rw [h2] at hcon
      exact Bool.false_ne_true hcon
    · rw [List.any_eq_true] at h2 ⊢
      rcases h2 with ⟨x, hx, hpx⟩
      exact ⟨x, hM.mem_iff.mpr hx, hpx⟩
  calc attacks.countP (fun g => defender.currentMines.any (fun m => samePosition g m))
      = attacks.countP (fun g => mines2.any (fun m => samePosition g m)) := by
        apply List.countP_congr
        intro g _
        rw [hany g]
    _ = attacks2.countP (fun g => mines2.any (fun m => samePosition g m)) :=
        hA.countP_eq _

/-- Witness for C6: swapping both the mine list and the attack list leaves
the hit count unchanged. -/
theorem claim_C6_witness :
    countHits (Player.mk true "P" 2 [Position.mk 0 0, Position.mk 1 1] [])
        [Position.mk 1 1, Position.mk 0 1]
      = countHits (Player.mk true "P" 2 [Position.mk 1 1, Position.mk 0 0] [])
        [Position.mk 0 1, Position.mk 1 1] :=
  claim_C6_countHits_perm_invariant _ _ _ _ (by decide) (by decide)

/-- Claim C9: the constructor clamps each out-of-range dimension to the
minimum 2 (a requested width of 5 yields 2, not 4), the resulting
dimensions always lie in [2,4], and neither `safeCellAccess` nor a whole
round of play changes them afterwards. -/
theorem claim_C9_construction_clamp (w h : Nat) :
    ((Board.make w h).width = if 2 ≤ w ∧ w ≤ 4 then w else 2)
    ∧ ((Board.make w h).height = if 2 ≤ h ∧ h ≤ 4 then h else 2)
    ∧ (Board.make 5 h).width = 2
    ∧ (2 ≤ (Board.make w h).width ∧ (Board.make w h).width ≤ 4)
    ∧ (2 ≤ (Board.make w h).height ∧ (Board.make w h).height ≤ 4)
    ∧ (∀ (b : Board) (c r : Nat) (fn : Nat → Nat),
        (b.safeCellAccess c r fn).width = b.width
        ∧ (b.safeCellAccess c r fn).height = b.height)
    ∧ (∀ (st : GameState) (ch : RoundChoice),
        (playRoundState st ch).board.width = st.board.width
        ∧ (playRoundState st ch).board.height = st.board.height) := by
  refine ⟨rfl, rfl, ?_, ?_, ?_, ?_, ?_⟩
  · simp [Board.make, Board.kMinSize, Board.kMaxSize]
  · constructor <;>
      (simp only [Board.make, Board.kMinSize, Board.kMaxSize]; split <;> omega)
  · constructor <;>
      (simp only [Board.make, Board.kMinSize, Board.kMaxSize]; split <;> omega)
  · intro b c r fn
    exact ⟨Board.width_safeCellAccess b c r fn, Board.height_safeCellAccess b c r fn⟩
  · intro st ch
    exact playRound_board_dims st.p1 st.p2 st.board ch

/-- A concrete round state on a 2×2 board: player 1 holds mines at (0,0)
and (1,0) and guesses (0,0) and (0,1); their own mine at (0,0) is also
guessed by player 2. -/
def p1ex : Player :=
  Player.mk true "Player 1" 2 [Position.mk 0 0, Position.mk 1 0]
    [Position.mk 0 0, Position.mk 0 1]

/-- Player 2 of the concrete round state: mines at (1,1) and (0,1),
guesses (0,0) and (1,1). -/
def p2ex : Player :=
  Player.mk true "Player 2" 2 [Position.mk 1 1, Position.mk 0 1]
    [Position.mk 0 0, Position.mk 1 1]

/-- The 2×2 board of the concrete round state after both placements. -/
def bEx : Board :=
  markMines (markMines (Board.make 2 2) p1ex.currentMines) p2ex.currentMines

/-- Claim C1 is false on the code: in the round state `p1ex`/`p2ex`/`bEx`,
player 1's mine at (0,0) matches an opponent guess and is counted as a
hit, yet the same mine is also self-detonated in the same round — it is
removed from player 1's mine list, its cell is marked `SelfDetonated`, and
player 1's `remainingMines` falls from 2 to 0, decremented twice by one
mine, where the claim predicts a single decrement (to 1). -/
theorem claim_C1_counterexample :
    countHits p1ex p2ex.currentGuesses = 1
    ∧ (p2ex.currentGuesses.any (fun g => samePosition (Position.mk 0 0) g)) = true
    ∧ (p1ex.currentGuesses.any (fun g => samePosition (Position.mk 0 0) g)) = true
    ∧ (resolveSelfDetonation { p1ex with remainingMines := 1 } bEx).2.2 = 1
    ∧ Position.mk 0 0 ∉ (resolveCombat p1ex p2ex bEx).1.currentMines
    ∧ hasFlag ((resolveCombat p1ex p2ex bEx).2.2.getCellStatus 0 0)
        CellStatusFlags.SelfDetonated = true
    ∧ (resolveCombat p1ex p2ex bEx).1.remainingMines = 0 := by
  decide

/-- Claim C1 (amended): hits are computed from the pre-self-detonation,
post-collision mine lists, but hit resolution does not remove mines from
the defender's list: self-detonation applies to every post-collision mine
matching its owner's guess — including mines already counted as opponent
hits — so such a mine decrements its owner's `remainingMines` twice in the
same round (each decrement floored at 0). -/
theorem claim_C1_selfdet_ignores_hits (p1 p2 : Player) (b : Board) :
    ((resolveCombat p1 p2 b).1.remainingMines
      = (if (if p1.remainingMines ≥ countHits p1 p2.currentGuesses
              then p1.remainingMines - countHits p1 p2.currentGuesses else 0)
            ≥ (p1.currentMines.filter
                (fun m => p1.currentGuesses.any (fun g => samePosition m g))).length
          then (if p1.remainingMines ≥ countHits p1 p2.currentGuesses
              then p1.remainingMines - countHits p1 p2.currentGuesses else 0)
            - (p1.currentMines.filter
                (fun m => p1.currentGuesses.any (fun g => samePosition m g))).length
          else 0))
    ∧ ((resolveCombat p1 p2 b).1.currentMines
      = p1.currentMines.filter
          (fun m => !(p1.currentGuesses.any (fun g => samePosition m g))))
    ∧ (∀ m ∈ p1.currentMines,
        p1.currentGuesses.any (fun g => samePosition m g) = true →
        m ∉ (resolveCombat p1 p2 b).1.currentMines) := by
  refine ⟨(resolveCombat_p1 p1 p2 b).1, (resolveCombat_p1 p1 p2 b).2, ?_⟩
  intro m _ hg
  rw [(resolveCombat_p1 p1 p2 b).2]
  simp [List.mem_filter, hg]

/-- Witness for the amended C1: the doubly-destroyed mine of the concrete
round state is indeed removed by the self-detonation pass. -/
theorem claim_C1_witness :
    Position.mk 0 0 ∉ (resolveCombat p1ex p2ex bEx).1.currentMines :=
  (claim_C1_selfdet_ignores_hits p1ex p2ex bEx).2.2 (Position.mk 0 0)
    (by decide) (by decide)

theorem collisionFn_testBit (s : Nat) :
    (collisionFn s).testBit 0 = true
    ∧ (collisionFn s).testBit 1 = false
    ∧ (collisionFn s).testBit 2 = s.testBit 2
    ∧ (collisionFn s).testBit 3 = s.testBit 3
    ∧ (collisionFn s).testBit 4 = true := by
  unfold collisionFn
  refine ⟨?_, ?_, ?_, ?_, ?_⟩ <;>
    simp only [Nat.testBit_or, Nat.testBit_and,
      (by decide : (CellStatusFlags.HadCollision).testBit 0 = false),
      (by decide : (CellStatusFlags.HadCollision).testBit 1 = false),
      (by decide : (CellStatusFlags.HadCollision).testBit 2 = false),
      (by decide : (CellStatusFlags.HadCollision).testBit 3 = false),
      (by decide : (CellStatusFlags.HadCollision).testBit 4 = true),
      (by decide : (CellStatusFlags.Disabled).testBit 0 = true),
      (by decide : (CellStatusFlags.Disabled).testBit 1 = false),
      (by decide : (CellStatusFlags.Disabled).testBit 2 = false),
      (by decide : (CellStatusFlags.Disabled).testBit 3 = false),
      (by decide : (CellStatusFlags.Disabled).testBit 4 = false),
      (by decide : (compl32 CellStatusFlags.HasMine).testBit 0 = true),
      (by decide : (compl32 CellStatusFlags.HasMine).testBit 1 = false),
      (by decide : (compl32 CellStatusFlags.HasMine).testBit 2 = true),
      (by decide : (compl32 CellStatusFlags.HasMine).testBit 3 = true),
      (by decide : (compl32 CellStatusFlags.HasMine).testBit 4 = true),
      Bool.or_false, Bool.or_true, Bool.and_true, Bool.and_false]

theorem selfDetFn_testBit (s : Nat) :
    (selfDetFn s).testBit 0 = true
    ∧ (selfDetFn s).testBit 1 = false
    ∧ (selfDetFn s).testBit 2 = s.testBit 2
    ∧ (selfDetFn s).testBit 3 = true
    ∧ (selfDetFn s).testBit 4 = s.testBit 4 := by
  unfold selfDetFn
  refine ⟨?_, ?_, ?_, ?_, ?_⟩ <;>
    simp only [Nat.testBit_or, Nat.testBit_and,
      (by decide : (CellStatusFlags.SelfDetonated).testBit 0 = false),
      (by decide : (CellStatusFlags.SelfDetonated).testBit 1 = false),
      (by decide : (CellStatusFlags.SelfDetonated).testBit 2 = false),
      (by decide : (CellStatusFlags.SelfDetonated).testBit 3 = true),
      (by decide : (CellStatusFlags.SelfDetonated).testBit 4 = false),
      (by decide : (CellStatusFlags.Disabled).testBit 0 = true),
      (by decide : (CellStatusFlags.Disabled).testBit 1 = false),
      (by decide : (CellStatusFlags.Disabled).testBit 2 = false),
      (by decide : (CellStatusFlags.Disabled).testBit 3 = false),
      (by decide : (CellStatusFlags.Disabled).testBit 4 = false),
      (by decide : (compl32 CellStatusFlags.HasMine).testBit 0 = true),
      (by decide : (compl32 CellStatusFlags.HasMine).testBit 1 = false),
      (by decide : (compl32 CellStatusFlags.HasMine).testBit 2 = true),
      (by decide : (compl32 CellStatusFlags.HasMine).testBit 3 = true),
      (by decide : (compl32 CellStatusFlags.HasMine).testBit 4 = true),
      Bool.or_false, Bool.or_true, Bool.and_true, Bool.and_false]

theorem placeMineFn_testBit (s : Nat) :
    (placeMineFn s).testBit 0 = s.testBit 0
    ∧ (placeMineFn s).testBit 1 = true
    ∧ (placeMineFn s).testBit 2 = s.testBit 2
    ∧ (placeMineFn s).testBit 3 = s.testBit 3
    ∧ (placeMineFn s).testBit 4 = s.testBit 4 := by
  unfold placeMineFn
  refine ⟨?_, ?_, ?_, ?_, ?_⟩ <;>
    simp only [Nat.testBit_or,
      (by decide : (CellStatusFlags.HasMine).testBit 0 = false),
      (by decide : (CellStatusFlags.HasMine).testBit 1 = true),
      (by decide : (CellStatusFlags.HasMine).testBit 2 = false),
      (by decide : (CellStatusFlags.HasMine).testBit 3 = false),
      (by decide : (CellStatusFlags.HasMine).testBit 4 = false),
      Bool.or_false, Bool.or_true]

theorem clearMineFn_testBit (s : Nat) :
    (clearMineFn s).testBit 0 = s.testBit 0
    ∧ (clearMineFn s).testBit 1 = false
    ∧ (clearMineFn s).testBit 2 = s.testBit 2
    ∧ (clearMineFn s).testBit 3 = s.testBit 3
    ∧ (clearMineFn s).testBit 4 = s.testBit 4 := by
  unfold clearMineFn
  refine ⟨?_, ?_, ?_, ?_, ?_⟩ <;>
    simp only [Nat.testBit_and,
      (by decide : (compl32 CellStatusFlags.HasMine).testBit 0 = true),
      (by decide : (compl32 CellStatusFlags.HasMine).testBit 1 = false),
      (by decide : (compl32 CellStatusFlags.HasMine).testBit 2 = true),
      (by decide : (compl32 CellStatusFlags.HasMine).testBit 3 = true),
      (by decide : (compl32 CellStatusFlags.HasMine).testBit 4 = true),
      Bool.and_true, Bool.and_false]

theorem disableFn_testBit (s : Nat) :
    (disableFn s).testBit 0 = true
    ∧ (disableFn s).testBit 1 = s.testBit 1
    ∧ (disableFn s).testBit 2 = true
    ∧ (disableFn s).testBit 3 = s.testBit 3
    ∧ (disableFn s).testBit 4 = s.testBit 4 := by
  unfold disableFn
  refine ⟨?_, ?_, ?_, ?_, ?_⟩ <;>
    simp only [Nat.testBit_or,
      (by decide : ((CellStatusFlags.Disabled ||| CellStatusFlags.WasGuessed)).testBit 0 = true),
      (by decide : ((CellStatusFlags.Disabled ||| CellStatusFlags.WasGuessed)).testBit 1 = false),
      (by decide : ((CellStatusFlags.Disabled ||| CellStatusFlags.WasGuessed)).testBit 2 = true),
      (by decide : ((CellStatusFlags.Disabled ||| CellStatusFlags.WasGuessed)).testBit 3 = false),
      (by decide : ((CellStatusFlags.Disabled ||| CellStatusFlags.WasGuessed)).testBit 4 = false),
      Bool.or_false, Bool.or_true]

/-- Claim C3: collision resolution is symmetric: for duplicate-free,
in-bounds mine lists with a non-empty intersection, after
`detectAndRemoveCollisions` every intersecting position is gone from both
players' mine lists, its cell carries `HadCollision` and `Disabled` with
`HasMine` cleared, and each player's `remainingMines` decreases by exactly
the number of their own mines removed, floored at 0 (Nat subtraction). -/
theorem claim_C3_collision_symmetry (p1 p2 : Player) (b : Board)
    (hWF : b.WF)
    (_hnd1 : p1.currentMines.Nodup) (_hnd2 : p2.currentMines.Nodup)
    (hin1 : ∀ p ∈ p1.currentMines, b.isValidPosition p.column p.row = true)
    (_hin2 : ∀ p ∈ p2.currentMines, b.isValidPosition p.column p.row = true)
    (_hinter : ∃ q ∈ p1.currentMines, q ∈ p2.currentMines) :
    (∀ q ∈ p1.currentMines, q ∈ p2.currentMines →
      q ∉ (detectAndRemoveCollisions p1 p2 b).1.currentMines
      ∧ q ∉ (detectAndRemoveCollisions p1 p2 b).2.1.currentMines
      ∧ hasFlag ((detectAndRemoveCollisions p1 p2 b).2.2.getCellStatus
          q.column q.row) CellStatusFlags.HadCollision = true
      ∧ hasFlag ((detectAndRemoveCollisions p1 p2 b).2.2.getCellStatus
          q.column q.row) CellStatusFlags.Disabled = true
      ∧ hasFlag ((detectAndRemoveCollisions p1 p2 b).2.2.getCellStatus
          q.column q.row) CellStatusFlags.HasMine = false)
    ∧ ((detectAndRemoveCollisions p1 p2 b).1.remainingMines
        = p1.remainingMines
          - (p1.currentMines.length
            - (detectAndRemoveCollisions p1 p2 b).1.currentMines.length))
    ∧ ((detectAndRemoveCollisions p1 p2 b).2.1.remainingMines
        = p2.remainingMines
          - (p2.currentMines.length
            - (detectAndRemoveCollisions p1 p2 b).2.1.currentMines.length)) := by
  refine ⟨?_, ?_, ?_⟩
  · intro q hq1 hq2
    have hany2 : p2.currentMines.any (fun o => samePosition q o) = true :=
      List.any_eq_true.mpr ⟨q, hq2, (samePosition_iff q q).mpr rfl⟩
    have hany1 : p1.currentMines.any (fun o => samePosition q o) = true :=
      List.any_eq_true.mpr ⟨q, hq1, (samePosition_iff q q).mpr rfl⟩
    have hql : q ∈ p1.currentMines.filter
        (fun m => p2.currentMines.any (fun o => samePosition m o)) :=
      List.mem_filter.mpr ⟨hq1, hany2⟩
    have hstat : (detectAndRemoveCollisions p1 p2 b).2.2.getCellStatus
        q.column q.row = collisionFn (b.getCellStatus q.column q.row) := by
      rw [board_detectAndRemoveCollisions,
        getCellStatus_applyAll collisionFn collisionFn_idem _ _ _ b hWF,
        if_pos ⟨⟨q, hql, rfl, rfl⟩, hin1 q hq1⟩]
    refine ⟨?_, ?_, ?_, ?_, ?_⟩
    · rw [(mines_detectAndRemoveCollisions p1 p2 b).1]
      simp [List.mem_filter, hany2]
    · rw [(mines_detectAndRemoveCollisions p1 p2 b).2]
      unfold keepNonCollidingMines
      simp [List.mem_filter, hany1]
    · rw [hstat, hasFlag_HadCollision]
      exact (collisionFn_testBit _).2.2.2.2
    · rw [hstat, hasFlag_Disabled]
      exact (collisionFn_testBit _).1
    · rw [hstat, hasFlag_HasMine]
      exact (collisionFn_testBit _).2.1
  · rw [(remainingMines_detectAndRemoveCollisions p1 p2 b).1]
    split <;> omega
  · rw [(remainingMines_detectAndRemoveCollisions p1 p2 b).2]
    split <;> omega

/-- Player 1 of the collision example: mines at (0,0) and (1,0). -/
def pc1 : Player :=
  Player.mk true "Player 1" 2 [Position.mk 0 0, Position.mk 1 0] []

/-- Player 2 of the collision example: mines at (0,0) and (1,1); the mine
at (0,0) collides with player 1's. -/
def pc2 : Player :=
  Player.mk true "Player 2" 2 [Position.mk 0 0, Position.mk 1 1] []

/-- Witness for C3: on a 2×2 board where both players mine (0,0), the
colliding position leaves both lists, the cell is marked, and both
remaining-mine counters drop by one. -/
theorem claim_C3_witness :
    Position.mk 0 0 ∉ (detectAndRemoveCollisions pc1 pc2 (Board.make 2 2)).1.currentMines
    ∧ Position.mk 0 0 ∉ (detectAndRemoveCollisions pc1 pc2 (Board.make 2 2)).2.1.currentMines
    ∧ hasFlag ((detectAndRemoveCollisions pc1 pc2 (Board.make 2 2)).2.2.getCellStatus 0 0)
        CellStatusFlags.HadCollision = true
    ∧ (detectAndRemoveCollisions pc1 pc2 (Board.make 2 2)).1.remainingMines
        = pc1.remainingMines
          - (pc1.currentMines.length
            - (detectAndRemoveCollisions pc1 pc2 (Board.make 2 2)).1.currentMines.length) := by
  have h := claim_C3_collision_symmetry pc1 pc2 (Board.make 2 2)
    (by decide) (by decide) (by decide) (by decide) (by decide)
    ⟨Position.mk 0 0, by decide, by decide⟩
  have hq := h.1 (Position.mk 0 0) (by decide) (by decide)
  exact ⟨hq.1, hq.2.1, hq.2.2.1, h.2.1⟩

theorem isValidPosition_clearMines (b : Board) (c r : Nat) :
    (clearMines b).isValidPosition c r = b.isValidPosition c r := by
  rw [clearMines_eq_applyAll]
  exact isValidPosition_applyAll _ _ _ _ _

theorem isValidPosition_markMines (b : Board) (ps : List Position) (c r : Nat) :
    (markMines b ps).isValidPosition c r = b.isValidPosition c r := by
  rw [markMines_eq_applyAll]
  exact isValidPosition_applyAll _ _ _ _ _

/-- Claim C7: round-trip of mine clearing: for a well-formed board and a
list `ps` of exactly the in-bounds positions currently carrying `HasMine`,
running `clearMines` and then re-marking `HasMine` at the positions of
`ps` reproduces the `HasMine` layout on every cell, and neither
`clearMines` nor the re-marking changes any flag other than `HasMine`
anywhere. -/
theorem claim_C7_clear_remark_roundtrip (b : Board) (ps : List Position)
    (hWF : b.WF)
    (hmem : ∀ p ∈ ps, b.isValidPosition p.column p.row = true
        ∧ hasFlag (b.getCellStatus p.column p.row) CellStatusFlags.HasMine = true)
    (hcover : ∀ c, c < b.width → ∀ r, r < b.height →
        hasFlag (b.getCellStatus c r) CellStatusFlags.HasMine = true →
        Position.mk c r ∈ ps) :
    ∀ c r : Nat,
      (hasFlag ((markMines (clearMines b) ps).getCellStatus c r)
          CellStatusFlags.HasMine
        = hasFlag (b.getCellStatus c r) CellStatusFlags.HasMine)
      ∧ (∀ f : Nat,
          (f = CellStatusFlags.Disabled ∨ f = CellStatusFlags.WasGuessed
            ∨ f = CellStatusFlags.SelfDetonated
            ∨ f = CellStatusFlags.HadCollision) →
          hasFlag ((clearMines b).getCellStatus c r) f
            = hasFlag (b.getCellStatus c r) f
          ∧ hasFlag ((markMines (clearMines b) ps).getCellStatus c r) f
            = hasFlag (b.getCellStatus c r) f) := by
  intro c r
  by_cases hv : b.isValidPosition c r = true
  case pos =>
    have hvp : c < b.width ∧ r < b.height := by
      simpa [Board.isValidPosition] using hv
    have hclear := getCellStatus_clearMines b hWF c r
    have hmark := getCellStatus_applyAll placeMineFn placeMineFn_idem ps c r
      (clearMines b) (WF_clearMines b hWF)
    rw [isValidPosition_clearMines] at hmark
    rw [markMines_eq_applyAll, hmark, hclear]
    by_cases hb1 : hasFlag (b.getCellStatus c r) CellStatusFlags.HasMine = true
    · have hex : ∃ p ∈ ps, p.column = c ∧ p.row = r :=
        ⟨Position.mk c r, hcover c hvp.1 r hvp.2 hb1, rfl, rfl⟩
      rw [hasFlag_HasMine] at hb1
      rw [if_pos ⟨hex, hv⟩]
      constructor
      · simp only [hasFlag_HasMine]
        rw [(placeMineFn_testBit _).2.1, hb1]
      · intro f hf
        rcases hf with h | h | h | h <;> subst h
        · simp only [hasFlag_Disabled]
          refine ⟨(clearMineFn_testBit _).1, ?_⟩
          rw [(placeMineFn_testBit _).1]
          exact (clearMineFn_testBit _).1
        · simp only [hasFlag_WasGuessed]
          refine ⟨(clearMineFn_testBit _).2.2.1, ?_⟩
          rw [(placeMineFn_testBit _).2.2.1]
          exact (clearMineFn_testBit _).2.2.1
        · simp only [hasFlag_SelfDetonated]
          refine ⟨(clearMineFn_testBit _).2.2.2.1, ?_⟩
          rw [(placeMineFn_testBit _).2.2.2.1]
          exact (clearMineFn_testBit _).2.2.2.1
        · simp only [hasFlag_HadCollision]
          refine ⟨(clearMineFn_testBit _).2.2.2.2, ?_⟩
          rw [(placeMineFn_testBit _).2.2.2.2]
          exact (clearMineFn_testBit _).2.2.2.2
    · have hnex : ¬ ∃ p ∈ ps, p.column = c ∧ p.row = r := by
        rintro ⟨p, hp, hpc, hpr⟩
        have h2 := (hmem p hp).2
        rw [hpc, hpr] at h2
        exact hb1 h2
      have hb1f : (b.getCellStatus c r).testBit 1 = false := by
        rw [← hasFlag_HasMine]
        simpa using hb1
      rw [if_neg (fun hcon => hnex hcon.1)]
      constructor
      · simp only [hasFlag_HasMine]
        exact ((clearMineFn_testBit (b.getCellStatus c r)).2.1).trans hb1f.symm
      · intro f hf
        rcases hf with h | h | h | h <;> subst h
        · simp only [hasFlag_Disabled]
          exact ⟨(clearMineFn_testBit _).1, (clearMineFn_testBit _).1⟩
        · simp only [hasFlag_WasGuessed]
          exact ⟨(clearMineFn_testBit _).2.2.1, (clearMineFn_testBit _).2.2.1⟩
        · simp only [hasFlag_SelfDetonated]
          exact ⟨(clearMineFn_testBit _).2.2.2.1, (clearMineFn_testBit _).2.2.2.1⟩
        · simp only [hasFlag_HadCollision]
          exact ⟨(clearMineFn_testBit _).2.2.2.2, (clearMineFn_testBit _).2.2.2.2⟩
  case neg =>
    have hvf : b.isValidPosition c r = false := by simpa using hv
    have hz0 : b.getCellStatus c r = CellStatusFlags.NoneF :=
      Board.getCellStatus_not_valid _ _ _ hvf
    have hzc : (clearMines b).getCellStatus c r = CellStatusFlags.NoneF := by
      refine Board.getCellStatus_not_valid _ _ _ ?_
      rw [isValidPosition_clearMines]
      exact hvf
    have hzm : (markMines (clearMines b) ps).getCellStatus c r
        = CellStatusFlags.NoneF := by
      refine Board.getCellStatus_not_valid _ _ _ ?_
      rw [isValidPosition_markMines, isValidPosition_clearMines]
      exact hvf
    rw [hz0, hzc, hzm]
    exact ⟨rfl, fun f _ => ⟨rfl, rfl⟩⟩

/-- Board of the round-trip example: a 2×2 board with a mine at (0,0) and
a guessed-and-disabled cell at (1,1). -/
def bC7 : Board :=
  disableGuessedPositions [Position.mk 1 1]
    (markMines (Board.make 2 2) [Position.mk 0 0])

/-- Witness for C7: clearing and re-marking the single mined cell of the
example board restores its `HasMine` flag and leaves the disabled marking
at (1,1) untouched. -/
theorem claim_C7_witness :
    hasFlag ((markMines (clearMines bC7) [Position.mk 0 0]).getCellStatus 0 0)
        CellStatusFlags.HasMine
      = hasFlag (bC7.getCellStatus 0 0) CellStatusFlags.HasMine
    ∧ hasFlag ((clearMines bC7).getCellStatus 1 1) CellStatusFlags.Disabled
      = hasFlag (bC7.getCellStatus 1 1) CellStatusFlags.Disabled := by
  have h := claim_C7_clear_remark_roundtrip bC7 [Position.mk 0 0]
    (by decide) (by decide) (by decide)
  exact ⟨(h 0 0).1, ((h 1 1).2 CellStatusFlags.Disabled (Or.inl rfl)).1⟩

theorem board_resolveSelfDetonation (player : Player) (b : Board) :
    (resolveSelfDetonation player b).2.1
      = applyAll selfDetFn b
          (player.currentMines.filter
            (fun m => player.currentGuesses.any (fun g => samePosition m g))) := by
  simp only [resolveSelfDetonation, resolveSelfDetonationAux_spec]

theorem collisionFn_mono (s k : Nat)
    (hk : k = 0 ∨ k = 2 ∨ k = 3 ∨ k = 4) (h : s.testBit k = true) :
    (collisionFn s).testBit k = true := by
  rcases hk with h0 | h0 | h0 | h0 <;> subst h0
  · exact (collisionFn_testBit s).1
  · rw [(collisionFn_testBit s).2.2.1]; exact h
  · rw [(collisionFn_testBit s).2.2.2.1]; exact h
  · exact (collisionFn_testBit s).2.2.2.2

theorem selfDetFn_mono (s k : Nat)
    (hk : k = 0 ∨ k = 2 ∨ k = 3 ∨ k = 4) (h : s.testBit k = true) :
    (selfDetFn s).testBit k = true := by
  rcases hk with h0 | h0 | h0 | h0 <;> subst h0
  · exact (selfDetFn_testBit s).1
  · rw [(selfDetFn_testBit s).2.2.1]; exact h
  · exact (selfDetFn_testBit s).2.2.2.1
  · rw [(selfDetFn_testBit s).2.2.2.2]; exact h

theorem placeMineFn_mono (s k : Nat)
    (hk : k = 0 ∨ k = 2 ∨ k = 3 ∨ k = 4) (h : s.testBit k = true) :
    (placeMineFn s).testBit k = true := by
  rcases hk with h0 | h0 | h0 | h0 <;> subst h0
  · rw [(placeMineFn_testBit s).1]; exact h
  · rw [(placeMineFn_testBit s).2.2.1]; exact h
  · rw [(placeMineFn_testBit s).2.2.2.1]; exact h
  · rw [(placeMineFn_testBit s).2.2.2.2]; exact h

theorem clearMineFn_mono (s k : Nat)
    (hk : k = 0 ∨ k = 2 ∨ k = 3 ∨ k = 4) (h : s.testBit k = true) :
    (clearMineFn s).testBit k = true := by
  rcases hk with h0 | h0 | h0 | h0 <;> subst h0
  · rw [(clearMineFn_testBit s).1]; exact h
  · rw [(clearMineFn_testBit s).2.2.1]; exact h
  · rw [(clearMineFn_testBit s).2.2.2.1]; exact h
  · rw [(clearMineFn_testBit s).2.2.2.2]; exact h

theorem disableFn_mono (s k : Nat)
    (hk : k = 0 ∨ k = 2 ∨ k = 3 ∨ k = 4) (h : s.testBit k = true) :
    (disableFn s).testBit k = true := by
  rcases hk with h0 | h0 | h0 | h0 <;> subst h0
  · exact (disableFn_testBit s).1
  · exact (disableFn_testBit s).2.2.1
  · rw [(disableFn_testBit s).2.2.2.1]; exact h
  · rw [(disableFn_testBit s).2.2.2.2]; exact h

theorem applyAll_persists (fn : Nat → Nat) (hidem : ∀ s, fn (fn s) = fn s)
    (hmono : ∀ s k, (k = 0 ∨ k = 2 ∨ k = 3 ∨ k = 4) → s.testBit k = true →
      (fn s).testBit k = true)
    (ps : List Position) (b : Board) (hWF : b.WF) (c r k : Nat)
    (hk : k = 0 ∨ k = 2 ∨ k = 3 ∨ k = 4)
    (hs : (b.getCellStatus c r).testBit k = true) :
    ((applyAll fn b ps).getCellStatus c r).testBit k = true := by
  rcases getCellStatus_applyAll_cases fn hidem ps c r b hWF with h | h
  · rw [h]
    exact hmono _ _ hk hs
  · rw [h]
    exact hs

/-- Claim C8: flag persistence: once `Disabled`, `WasGuessed`,
`SelfDetonated` or `HadCollision` is set on a cell, no game operation
(placement marking, collision resolution, self-detonation, guess
disabling, `clearMines`) ever clears it — `HasMine` is the only flag any
of these operations removes. -/
theorem claim_C8_flag_persistence (b : Board) (hWF : b.WF)
    (ps guesses : List Position) (p1 p2 player : Player) (c r f : Nat)
    (hf : f = CellStatusFlags.Disabled ∨ f = CellStatusFlags.WasGuessed
      ∨ f = CellStatusFlags.SelfDetonated ∨ f = CellStatusFlags.HadCollision)
    (hset : hasFlag (b.getCellStatus c r) f = true) :
    hasFlag ((markMines b ps).getCellStatus c r) f = true
    ∧ hasFlag ((detectAndRemoveCollisions p1 p2 b).2.2.getCellStatus c r) f
        = true
    ∧ hasFlag ((resolveSelfDetonation player b).2.1.getCellStatus c r) f = true
    ∧ hasFlag ((disableGuessedPositions guesses b).getCellStatus c r) f = true
    ∧ hasFlag ((clearMines b).getCellStatus c r) f = true := by
  have key : ∀ fn : Nat → Nat, (∀ s, fn (fn s) = fn s) →
      (∀ s k, (k = 0 ∨ k = 2 ∨ k = 3 ∨ k = 4) → s.testBit k = true →
        (fn s).testBit k = true) →
      ∀ L : List Position,
        hasFlag ((applyAll fn b L).getCellStatus c r) f = true := by
    intro fn hidem hmono L
    rcases hf with h | h | h | h <;> subst h
    · rw [hasFlag_Disabled] at hset ⊢
      exact applyAll_persists fn hidem hmono L b hWF c r 0 (Or.inl rfl) hset
    · rw [hasFlag_WasGuessed] at hset ⊢
      exact applyAll_persists fn hidem hmono L b hWF c r 2
        (Or.inr (Or.inl rfl)) hset
    · rw [hasFlag_SelfDetonated] at hset ⊢
      exact applyAll_persists fn hidem hmono L b hWF c r 3
        (Or.inr (Or.inr (Or.inl rfl))) hset
    · rw [hasFlag_HadCollision] at hset ⊢
      exact applyAll_persists fn hidem hmono L b hWF c r 4
        (Or.inr (Or.inr (Or.inr rfl))) hset
  refine ⟨?_, ?_, ?_, ?_, ?_⟩
  · rw [markMines_eq_applyAll]
    exact key placeMineFn placeMineFn_idem placeMineFn_mono ps
  · rw [board_detectAndRemoveCollisions]
    exact key collisionFn collisionFn_idem collisionFn_mono _
  · rw [board_resolveSelfDetonation]
    exact key selfDetFn selfDetFn_idem selfDetFn_mono _
  · rw [disableGuessedPositions_eq_applyAll]
    exact key disableFn disableFn_idem disableFn_mono guesses
  · rw [clearMines_eq_applyAll]
    exact key clearMineFn clearMineFn_idem clearMineFn_mono _

/-- Witness for C8: the `Disabled` flag set at (1,1) of the example board
survives both `clearMines` and a fresh placement marking. -/
theorem claim_C8_witness :
    hasFlag ((clearMines bC7).getCellStatus 1 1) CellStatusFlags.Disabled = true
    ∧ hasFlag ((markMines bC7 [Position.mk 0 1]).getCellStatus 1 1)
        CellStatusFlags.Disabled = true := by
  have h := claim_C8_flag_persistence bC7 (by decide) [Position.mk 0 1]
    [Position.mk 0 1] pc1 pc2 pc1 1 1 CellStatusFlags.Disabled
    (Or.inl rfl) (by decide)
  exact ⟨h.2.2.2.2, h.1⟩

theorem mem_availableCells (b : Board) (p : Position) :
    p ∈ availableCells b
      ↔ (b.isValidPosition p.column p.row = true
        ∧ b.isDisabled p.column p.row = false) := by
  unfold availableCells
  rw [List.mem_filter, mem_allCells]
  constructor
  · rintro ⟨⟨h1, h2⟩, h3⟩
    exact ⟨by simp [Board.isValidPosition, h1, h2], by simpa using h3⟩
  · rintro ⟨h1, h2⟩
    have hwh : p.column < b.width ∧ p.row < b.height := by
      simpa [Board.isValidPosition] using h1
    exact ⟨hwh, by simp [h2]⟩

theorem collectStep_invariant (b : Board) (acc : List Position)
    (pos : Position) (hnd : acc.Nodup)
    (hsub : ∀ p ∈ acc, p ∈ availableCells b)
    (hpos : pos ∈ availableCells b) :
    (collectStep acc pos).Nodup
    ∧ (∀ p ∈ collectStep acc pos, p ∈ availableCells b) := by
  unfold collectStep
  by_cases h : acc.any (fun p => samePosition p pos) = true
  · rw [if_pos h]
    exact ⟨hnd, hsub⟩
  · rw [if_neg h]
    have hnotmem : pos ∉ acc := by
      intro hmem
      exact h (List.any_eq_true.mpr ⟨pos, hmem, (samePosition_iff pos pos).mpr rfl⟩)
    constructor
    · exact (List.perm_append_singleton pos acc).nodup_iff.mpr
        (List.nodup_cons.mpr ⟨hnotmem, hnd⟩)
    · intro p hp
      rcases List.mem_append.mp hp with h1 | h1
      · exact hsub p h1
      · rw [List.mem_singleton] at h1
        subst h1
        exact hpos

theorem nodup_subset_length_le (l L : List Position) (hnd : l.Nodup)
    (hsub : ∀ p ∈ l, p ∈ L) : l.length ≤ L.length := by
  calc l.length = l.toFinset.card := (List.toFinset_card_of_nodup hnd).symm
    _ ≤ L.toFinset.card := Finset.card_le_card (by
        intro x hx
        rw [List.mem_toFinset] at hx ⊢
        exact hsub x hx)
    _ ≤ L.length := List.toFinset_card_le L

/-- Claim C10: `isValidMineCount` accepts any count in [1,5] regardless of
the board's area, yet the board may have as few as 4 cells; whenever the
requested count exceeds the number of distinct non-disabled in-bounds
cells, the collection loop of `collectPositions` (whose candidates the
collaborators always draw from the available cells) can never gather
`count` unique positions: for every amount of fuel it fails, i.e. the
source's unbounded loop does not terminate, so `collectPositions`
terminates only under the precondition that at least `count` available
cells exist. -/
theorem claim_C10_collect_nontermination (b : Board) (count : Nat) :
    (b.isValidMineCount count = true ↔ (1 ≤ count ∧ count ≤ 5))
    ∧ (∀ cand : Nat → Position,
        (∀ j, cand j ∈ availableCells b) →
        (availableCells b).length < count →
        ∀ (fuel i : Nat) (acc : List Position),
          acc.Nodup → (∀ p ∈ acc, p ∈ availableCells b) →
          collectPositionsLoop cand count fuel i acc = none) := by
  constructor
  · simp [Board.isValidMineCount, Board.kMinMines, Board.kMaxMines]
  · intro cand hcand hcount fuel
    induction fuel with
    | zero =>
      intro i acc hnd hsub
      have hgt : ¬ count ≤ acc.length := by
        have hlen := nodup_subset_length_le acc (availableCells b) hnd hsub
        omega
      unfold collectPositionsLoop
      rw [if_neg hgt]
    | succ fuel ih =>
      intro i acc hnd hsub
      have hgt : ¬ count ≤ acc.length := by
        have hlen := nodup_subset_length_le acc (availableCells b) hnd hsub
        omega
      unfold collectPositionsLoop
      rw [if_neg hgt]
      exact ih (i + 1) (collectStep acc (cand i))
        (collectStep_invariant b acc (cand i) hnd hsub (hcand i)).1
        (collectStep_invariant b acc (cand i) hnd hsub (hcand i)).2

/-- Witness for C10: a 2×2 board accepts a mine count of 5, yet with only
4 cells the collection loop cannot finish (here given 50 candidates). -/
theorem claim_C10_witness :
    (Board.make 2 2).isValidMineCount 5 = true
    ∧ collectPositionsLoop (fun _ => Position.mk 0 0) 5 50 0 [] = none := by
  constructor
  · exact (claim_C10_collect_nontermination (Board.make 2 2) 5).1.mpr (by decide)
  · exact (claim_C10_collect_nontermination (Board.make 2 2) 5).2
      (fun _ => Position.mk 0 0)
      (fun _ => (by decide : Position.mk 0 0 ∈ availableCells (Board.make 2 2)))
      (by decide) 50 0 [] (by decide) (by decide)
